import Mathlib

/-!
Shallow embedding of `scripts/scrape.py` (NICAR 2019 schedule scraper).

Python strings become `String`, Python ints become `Nat`/`Int`, Python
floats become `ℚ` (all arithmetic in this program is exact division of
integers, so the embedding is exact), and code that can raise becomes
`Except String`, the error string naming the Python exception.  HTML
elements are embedded as the lists of texts and attributes that
`parse_session` actually queries from them.

The Python string primitives (`split`, `strip`, `int`, comparison, the
regex scans) are implemented here by structural recursion over character
lists, so that every definition evaluates inside the kernel.
-/

set_option maxRecDepth 8000

/-- The fixed five-date list `DATES` from the source. -/
def DATES : List String :=
  [ "2019-03-06"
  , "2019-03-07"
  , "2019-03-08"
  , "2019-03-09"
  , "2019-03-10" ]

/-- Test whether the first list is an initial segment of the second. -/
def isPrefixC : List Char → List Char → Bool
  | [], _ => true
  | _ :: _, [] => false
  | a :: as, b :: bs => a == b && isPrefixC as bs

/-- Worker for `pySplit`: scan for occurrences of the non-empty separator
`sep`, accumulating the current field in reverse.  The recursion is
structural on a fuel argument so that the kernel can evaluate it; every
step consumes at least one character, so fuel `l.length + 1` always
suffices and the fuel-exhausted branch is unreachable. -/
def splitOnGo (sep : List Char) : Nat → List Char → List Char → List (List Char)
  | 0, l, acc => [acc.reverse ++ l]
  | _ + 1, [], acc => [acc.reverse]
  | fuel + 1, c :: rest, acc =>
    if isPrefixC sep (c :: rest) then
      acc.reverse :: splitOnGo sep fuel ((c :: rest).drop sep.length) []
    else splitOnGo sep fuel rest (c :: acc)

/-- Python `s.split(sep)` for a non-empty separator: non-overlapping,
leftmost-first, keeping empty fields. -/
def pySplit (sep s : String) : List String :=
  match sep.data with
  | [] => [s]
  | c :: cs => (splitOnGo (c :: cs) (s.data.length + 1) s.data []).map (fun l => String.mk l)

/-- Python `int(s)`, embedded for the non-negative decimal literals this
program feeds it: all-digit strings parse, anything else (including the
empty string) raises `ValueError`. -/
def pyInt : String → Option Nat :=
  fun s =>
    match s.data with
    | [] => none
    | l => digitsGo 0 l
where
  digitsGo (acc : Nat) : List Char → Option Nat
    | [] => some acc
    | c :: rest => if c.isDigit then digitsGo (acc * 10 + (c.toNat - 48)) rest else none

/-- Run a fallible function over a list, failing as soon as one element
fails (Python's `list(map(f, xs))` with a raising `f`). -/
def mapO (f : α → Option β) : List α → Option (List β)
  | [] => some []
  | x :: xs =>
    match f x with
    | none => none
    | some y =>
      match mapO f xs with
      | none => none
      | some ys => some (y :: ys)

/-- The characters of Python's `\s` class (and of `str.strip`), ASCII
range. -/
def pyIsSpace (c : Char) : Bool :=
  c == ' ' || c == '\t' || c == '\n' || c == '\r' || c == '\x0b' || c == '\x0c'

/-- Python `s.strip()`: drop whitespace from both ends. -/
def pyStrip (s : String) : String :=
  String.mk (((s.data.dropWhile pyIsSpace).reverse.dropWhile pyIsSpace).reverse)

/-- Join character lists with a separator (Python `sep.join`). -/
def joinWithC (sep : List Char) : List (List Char) → List Char
  | [] => []
  | [x] => x
  | x :: y :: rest => x ++ sep ++ joinWithC sep (y :: rest)

/-- Python `sep.join(parts)`. -/
def pyJoin (sep : String) (parts : List String) : String :=
  String.mk (joinWithC sep.data (parts.map String.data))

/-- Python `"{0:02d}".format(n)`: decimal, zero-padded to width 2. -/
def fmt2 (n : Nat) : String :=
  if n < 10 then "0" ++ toString n else toString n

/-- Python `nums.count(":")`. -/
def countColon (s : String) : Nat := s.data.count ':'

/-- `convert_time(ts)`: split off the am/pm suffix, append ":00" when
there is no colon, add 12 hours when the suffix is "pm" and the hour is
not 12, and zero-pad both fields.  The `is_pm` flag of the source is
inlined; each `raise` site becomes an `Except.error` naming the
exception. -/
def convert_time (ts : String) : Except String String :=
  match pySplit " " ts with
  | [nums, suffix] =>
    if suffix = "pm" ∨ suffix = "am" then
      match mapO pyInt (pySplit ":" (if countColon nums = 0 then nums ++ ":00" else nums)) with
      | some [hours, minutes] =>
        .ok (fmt2 (hours + if suffix = "pm" ∧ hours ≠ 12 then 12 else 0) ++ ":" ++ fmt2 minutes)
      | _ => .error ("ValueError: invalid int literal or unpack in " ++ ts)
    else .error ("ValueError: Can't parse " ++ ts)
  | _ => .error ("ValueError: not enough values to unpack in " ++ ts)

/-- `calculate_length(start, end)`: total-minute difference divided by 60.
Python float division of these integers is exact, embedded as the
rational `Rat.divInt`. -/
def calculate_length (s e : String) : Except String ℚ :=
  match mapO pyInt (pySplit ":" s), mapO pyInt (pySplit ":" e) with
  | some [s_hours, s_mins], some [e_hours, e_mins] =>
    .ok (Rat.divInt (((e_hours : ℤ) * 60 + e_mins) - ((s_hours : ℤ) * 60 + s_mins)) 60)
  | _, _ => .error "ValueError: invalid time literal in calculate_length"

/-- Python `round` to an integer: nearest, ties to even (banker's
rounding), computed on the exact rational value with integer arithmetic:
`f` is the floor of `q` and `rem / q.den` its fractional part. -/
def roundHalfEven (q : ℚ) : ℤ :=
  let f := Int.fdiv q.num (q.den : ℤ)
  let rem := q.num - f * (q.den : ℤ)
  if 2 * rem < (q.den : ℤ) then f
  else if ((q.den : ℤ)) < 2 * rem then f + 1
  else if 2 ∣ f then f else f + 1

/-- Python `round(q, 3)` on the exact rational value:
`roundHalfEven(q * 1000) / 1000`. -/
def round3 (q : ℚ) : ℚ :=
  Rat.divInt (roundHalfEven (Rat.divInt (q.num * 1000) (q.den : ℤ))) 1000

/-- The nested `get_text(sel)` helper of `parse_session`, applied to the
text contents of the elements the selector matched: strip each, keep the
non-empty ones, join with blank lines; `None` when nothing remains
(Python's `"\n\n".join(...) or None`). -/
def get_text (texts : List String) : Option String :=
  match (texts.map pyStrip).filter (fun t => !t.data.isEmpty) with
  | [] => none
  | l => some (pyJoin "\n\n" l)

/-- `re.sub(r"^Speakers?:\s+", "", raw)`: drop a leading `Speaker:` or
`Speakers:` label followed by at least one whitespace character (`\s+` is
greedy, so the maximal whitespace run is dropped); otherwise return the
text unchanged.  The match is anchored and case-sensitive; when the colon
is not followed by whitespace neither alternative of `Speakers?` can
complete the pattern, so nothing is stripped. -/
def stripSpeakerLabel (s : String) : String :=
  if isPrefixC "Speakers:".data s.data then
    let rest := s.data.drop 9
    let ws := rest.takeWhile pyIsSpace
    if !ws.isEmpty then String.mk (rest.drop ws.length) else s
  else if isPrefixC "Speaker:".data s.data then
    let rest := s.data.drop 8
    let ws := rest.takeWhile pyIsSpace
    if !ws.isEmpty then String.mk (rest.drop ws.length) else s
  else s

/-- Python slice `l[-3:-1]`: elements from index `len-3` (clamped to 0)
up to, excluding, index `len-1` (clamped to 0).  Slicing never raises. -/
def sliceM3M1 (l : List α) : List α :=
  let n := l.length
  let start := if 3 ≤ n then n - 3 else 0
  let stop := if 1 ≤ n then n - 1 else 0
  (l.take stop).drop start

/-- One session element, embedded as the query results `parse_session`
reads off it: the text contents matched by each `get_text` selector, and
the `href` attributes of the `.event-title a` matches. -/
structure SessionEl where
  event_speakers : List String
  event_meta_p : List String
  event_title : List String
  event_type : List String
  event_content_p : List String
  event_meta_h4 : List String
  event_title_a_href : List String
deriving DecidableEq

/-- The `OrderedDict` record built by `parse_session`. -/
structure Session where
  title : Option String
  type : Option String
  description : Option String
  speakers : Option String
  date : String
  time_start : String
  time_end : String
  length_in_hours : ℚ
  room : Option String
  event_id : String
  event_url : String
deriving DecidableEq

/-- `parse_session(el, date)`.  Failure points, in source order: a missing
time block (`None.split` raises `AttributeError`), a time range that does
not split into exactly two tokens, an unparseable time token, a missing
`.event-title a` element (`[0]` raises `IndexError`).  The speakers
computation never raises and is inlined into the record. -/
def parse_session (el : SessionEl) (date : String) : Except String Session :=
  match get_text el.event_meta_p with
  | none => .error "AttributeError: NoneType object has no attribute split"
  | some s_time =>
    match pySplit " - " s_time with
    | [t1, t2] =>
      match convert_time t1 with
      | .error e => .error e
      | .ok time_start =>
        match convert_time t2 with
        | .error e => .error e
        | .ok time_end =>
          match el.event_title_a_href with
          | [] => .error "IndexError: list index out of range"
          | s_href :: _ =>
            match calculate_length time_start time_end with
            | .error e => .error e
            | .ok len =>
              .ok { title := get_text el.event_title
                  , type := get_text el.event_type
                  , description := get_text el.event_content_p
                  , speakers :=
                      match get_text el.event_speakers with
                      | none => none
                      | some raw => some (stripSpeakerLabel raw)
                  , date := date
                  , time_start := time_start
                  , time_end := time_end
                  , length_in_hours := round3 len
                  , room := get_text el.event_meta_h4
                  , event_id := pyJoin "/" (sliceM3M1 (pySplit "/" s_href))
                  , event_url := "https://ire.org" ++ s_href }
    | _ => .error "ValueError: not enough values to unpack time range"

/-- A Python list comprehension over a fallible body: the first exception
aborts the whole comprehension. -/
def mapE (f : α → Except String β) : List α → Except String (List β)
  | [] => .ok []
  | x :: xs =>
    match f x with
    | .error e => .error e
    | .ok y =>
      match mapE f xs with
      | .error e => .error e
      | .ok ys => .ok (y :: ys)

/-- `parse_day(el, date)`: parse every child session element. -/
def parse_day (els : List SessionEl) (date : String) : Except String (List Session) :=
  mapE (fun s => parse_session s date) els

/-- `zip(day_els, DATES)` from `get_sessions`. -/
def daysZipped (day_els : List (List SessionEl)) : List (List SessionEl × String) :=
  day_els.zip DATES

/-- A character in the lead-byte range `[\xc2-\xf4]` of the
`fix_encoding` pattern. -/
def isLead (c : Char) : Bool := 0xc2 ≤ c.toNat && c.toNat ≤ 0xf4

/-- A character in the continuation range `[\x80-\xbf]` of the
`fix_encoding` pattern. -/
def isCont (c : Char) : Bool := 0x80 ≤ c.toNat && c.toNat ≤ 0xbf

/-- A byte in the continuation range of a UTF-8 multi-byte sequence. -/
def isContB (b : Nat) : Bool := 0x80 ≤ b && b ≤ 0xbf

/-- Python `bytes.decode("utf-8")`: strict UTF-8 decoding of a byte list,
rejecting overlong forms, surrogates and values above U+10FFFF; `none` is
a `UnicodeDecodeError`. -/
def utf8Decode : List Nat → Option (List Char)
  | [] => some []
  | b :: rest =>
    if b < 0x80 then (utf8Decode rest).map (fun cs => Char.ofNat b :: cs)
    else if b < 0xc2 then none
    else if b < 0xe0 then
      match rest with
      | b2 :: rest2 =>
        if isContB b2 then
          (utf8Decode rest2).map (fun cs => Char.ofNat ((b - 0xc0) * 64 + (b2 - 0x80)) :: cs)
        else none
      | [] => none
    else if b < 0xf0 then
      match rest with
      | b2 :: b3 :: rest3 =>
        if isContB b2 && isContB b3 && (b != 0xe0 || 0xa0 ≤ b2) && (b != 0xed || b2 ≤ 0x9f) then
          (utf8Decode rest3).map (fun cs =>
            Char.ofNat ((b - 0xe0) * 4096 + (b2 - 0x80) * 64 + (b3 - 0x80)) :: cs)
        else none
      | _ => none
    else if b ≤ 0xf4 then
      match rest with
      | b2 :: b3 :: b4 :: rest4 =>
        if isContB b2 && isContB b3 && isContB b4 && (b != 0xf0 || 0x90 ≤ b2)
            && (b != 0xf4 || b2 ≤ 0x8f) then
          (utf8Decode rest4).map (fun cs =>
            Char.ofNat ((b - 0xf0) * 262144 + (b2 - 0x80) * 4096 + (b3 - 0x80) * 64 + (b4 - 0x80))
              :: cs)
        else none
      | _ => none
    else none

/-- The `re.sub(pat, fix, text)` scan of `fix_encoding`: find each
leftmost, non-overlapping match of a lead-range character followed by a
maximal (greedy `+`) non-empty run of continuation-range characters,
encode the matched characters as Latin-1 bytes and re-decode them as
UTF-8 (their code points are at most `0xf4`, so the Latin-1 encode cannot
fail); a `UnicodeDecodeError` inside the replacement propagates.

The recursion is structural on a fuel argument so that the kernel can
evaluate it; every step consumes at least one character, so fuel
`l.length + 1` always suffices and the fuel-exhausted branch is
unreachable. -/
def subFixFuel : Nat → List Char → Option (List Char)
  | 0, _ => some []
  | _ + 1, [] => some []
  | fuel + 1, c :: rest =>
    if isLead c && !(rest.takeWhile isCont).isEmpty then
      match utf8Decode ((c :: rest.takeWhile isCont).map Char.toNat) with
      | some cs => (subFixFuel fuel (rest.drop (rest.takeWhile isCont).length)).map
          (fun t => cs ++ t)
      | none => none
    else (subFixFuel fuel rest).map (fun t => c :: t)

/-- The whole `re.sub` pass of `fix_encoding` over the decoded text. -/
def subFix (l : List Char) : Option (List Char) := subFixFuel (l.length + 1) l

/-- `fix_encoding(string)`: decode the raw bytes as UTF-8, then run the
repair substitution over the decoded text. -/
def fix_encoding (bytes : List Nat) : Option (List Char) :=
  match utf8Decode bytes with
  | none => none
  | some text => subFix text

/-- Three-way comparison of character lists, lexicographic by code point:
Python string comparison. -/
def cmpC : List Char → List Char → Ordering
  | [], [] => .eq
  | [], _ :: _ => .lt
  | _ :: _, [] => .gt
  | a :: as, b :: bs => if a < b then .lt else if b < a then .gt else cmpC as bs

/-- Python comparison of two strings. -/
def cmpStr (a b : String) : Ordering := cmpC a.data b.data

/-- Comparison of the `title` slot of two sort keys.  Python tuple
comparison first tests `==` — `None == None` holds, so two absent titles
compare equal — and falls back to `<` only on inequality, where comparing
`None` against a string raises `TypeError`. -/
def cmpOptTitle : Option String → Option String → Except String Ordering
  | none, none => .ok .eq
  | some a, some b => .ok (cmpStr a b)
  | _, _ => .error "TypeError: not supported between instances of NoneType and str"

/-- Comparison of `itemgetter("date", "time_start", "time_end", "title")`
keys, exactly as Python compares the two 4-tuples: componentwise, the
first unequal component decides. -/
def keyCmp (a b : Session) : Except String Ordering :=
  if cmpStr a.date b.date = .eq then
    if cmpStr a.time_start b.time_start = .eq then
      if cmpStr a.time_end b.time_end = .eq then
        cmpOptTitle a.title b.title
      else .ok (cmpStr a.time_end b.time_end)
    else .ok (cmpStr a.time_start b.time_start)
  else .ok (cmpStr a.date b.date)

/-- The non-strict order on sort keys: the comparison succeeded and did
not return `gt`. -/
def keyLe (a b : Session) : Prop := keyCmp a b = .ok .lt ∨ keyCmp a b = .ok .eq

instance {ε α : Type} [DecidableEq ε] [DecidableEq α] : DecidableEq (Except ε α) := fun x y =>
  match x, y with
  | .ok a, .ok b => if h : a = b then isTrue (by rw [h]) else isFalse (by simp [h])
  | .error a, .error b => if h : a = b then isTrue (by rw [h]) else isFalse (by simp [h])
  | .ok _, .error _ => isFalse (by simp)
  | .error _, .ok _ => isFalse (by simp)

instance keyLeDecidable (a b : Session) : Decidable (keyLe a b) :=
  inferInstanceAs (Decidable (keyCmp a b = .ok .lt ∨ keyCmp a b = .ok .eq))

/-- Stable insertion of one record into an already sorted list: the
record goes in front of the first list entry strictly greater than it,
hence after every entry less than or equal to it.  A `TypeError` raised
by a comparison propagates. -/
def insertE (x : Session) : List Session → Except String (List Session)
  | [] => .ok [x]
  | y :: ys =>
    match keyCmp x y with
    | .error e => .error e
    | .ok .lt => .ok (x :: y :: ys)
    | .ok .eq =>
      match insertE x ys with
      | .error e => .error e
      | .ok r => .ok (y :: r)
    | .ok .gt =>
      match insertE x ys with
      | .error e => .error e
      | .ok r => .ok (y :: r)

/-- Left fold of stable insertions. -/
def sortInsertAll (acc : List Session) : List Session → Except String (List Session)
  | [] => .ok acc
  | x :: xs =>
    match insertE x acc with
    | .error e => .error e
    | .ok acc2 => sortInsertAll acc2 xs

/-- Python `sorted(sessions, key=itemgetter("date", "time_start",
"time_end", "title"))`: a stable sort under the 4-tuple key, embedded as
stable insertion sort with the same comparison semantics. -/
def sortSessions (l : List Session) : Except String (List Session) :=
  sortInsertAll [] l

/-- The pure core of `get_sessions`, applied to the per-day lists of
session elements found by `cssselect("ul.schedule-list.pane")` in page
order: zip the day containers against `DATES`, parse each day, flatten,
and sort. -/
def getSessionsFrom (day_els : List (List SessionEl)) : Except String (List Session) :=
  match mapE (fun p => parse_day p.1 p.2) (daysZipped day_els) with
  | .error e => .error e
  | .ok nested => sortSessions nested.flatten

/-- Adjacent-pair freedom from the `fix_encoding` pattern: no lead-range
character immediately followed by a continuation-range character. -/
def leadContFree (a b : Char) : Prop := ¬(isLead a ∧ isCont b)

instance leadContFreeDecidable (a b : Char) : Decidable (leadContFree a b) :=
  inferInstanceAs (Decidable (¬(isLead a ∧ isCont b)))

/-! ### Concrete fixtures: session elements of the shapes the page
produces, and the records `parse_session` extracts from them. -/

/-- A fully populated session element. -/
def elW : SessionEl :=
  { event_speakers := ["Speakers: Jane Doe"]
  , event_meta_p := ["9 am - 10:30 am"]
  , event_title := ["Workshop"]
  , event_type := ["Panel"]
  , event_content_p := ["About things."]
  , event_meta_h4 := ["Room 1"]
  , event_title_a_href := ["/events-and-training/event/1234/5678/"] }

/-- The record extracted from `elW`. -/
def recW : Session :=
  { title := some "Workshop"
  , type := some "Panel"
  , description := some "About things."
  , speakers := some "Jane Doe"
  , date := "2019-03-06"
  , time_start := "09:00"
  , time_end := "10:30"
  , length_in_hours := Rat.divInt 3 2
  , room := some "Room 1"
  , event_id := "1234/5678"
  , event_url := "https://ire.org/events-and-training/event/1234/5678/" }

/-- A session element whose title link has the one-segment href "x". -/
def elShort : SessionEl :=
  { event_speakers := []
  , event_meta_p := ["8 am - 9 am"]
  , event_title := ["T"]
  , event_type := []
  , event_content_p := []
  , event_meta_h4 := []
  , event_title_a_href := ["x"] }

/-- The record extracted from `elShort`: its `event_id` is empty because
the slice `[-3:-1]` of the single-segment split is empty. -/
def recShort : Session :=
  { title := some "T"
  , type := none
  , description := none
  , speakers := none
  , date := "2019-03-06"
  , time_start := "08:00"
  , time_end := "09:00"
  , length_in_hours := 1
  , room := none
  , event_id := ""
  , event_url := "https://ire.orgx" }

/-- A session element whose time block ends before it starts. -/
def elNeg : SessionEl :=
  { event_speakers := []
  , event_meta_p := ["10 pm - 9 am"]
  , event_title := ["Late"]
  , event_type := []
  , event_content_p := []
  , event_meta_h4 := []
  , event_title_a_href := ["/a/b/c/d"] }

/-- The record extracted from `elNeg`: a negative duration. -/
def recNeg : Session :=
  { title := some "Late"
  , type := none
  , description := none
  , speakers := none
  , date := "2019-03-06"
  , time_start := "22:00"
  , time_end := "09:00"
  , length_in_hours := -13
  , room := none
  , event_id := "b/c"
  , event_url := "https://ire.org/a/b/c/d" }

/-- A session element whose title element carries only empty text, while
its title link still exists. -/
def elB : SessionEl :=
  { event_speakers := []
  , event_meta_p := ["8 am - 9 am"]
  , event_title := [""]
  , event_type := []
  , event_content_p := []
  , event_meta_h4 := []
  , event_title_a_href := ["/a/b/c/d"] }

/-- The record extracted from `elB`: its title is absent. -/
def recB : Session :=
  { title := none
  , type := none
  , description := none
  , speakers := none
  , date := "2019-03-06"
  , time_start := "08:00"
  , time_end := "09:00"
  , length_in_hours := 1
  , room := none
  , event_id := "b/c"
  , event_url := "https://ire.org/a/b/c/d" }

/-- `recB` with a string title and the same date and time window. -/
def recC : Session := { recB with title := some "T" }

/-! ### Helper lemmas -/

theorem cmpC_swap (a b : List Char) : cmpC b a = (cmpC a b).swap := by
  induction a generalizing b with
  | nil => cases b <;> simp [cmpC, Ordering.swap]
  | cons x xs ih =>
    cases b with
    | nil => simp [cmpC, Ordering.swap]
    | cons y ys =>
      simp only [cmpC]
      rcases lt_trichotomy x y with h | h | h
      · rw [if_neg (asymm h), if_pos h, if_pos h]
        rfl
      · subst h
        simp only [lt_irrefl, if_false]
        exact ih ys
      · rw [if_pos h, if_neg (asymm h), if_pos h]
        rfl

theorem cmpC_eq_iff (a b : List Char) : cmpC a b = .eq ↔ a = b := by
  induction a generalizing b with
  | nil => cases b <;> simp [cmpC]
  | cons x xs ih =>
    cases b with
    | nil => simp [cmpC]
    | cons y ys =>
      simp only [cmpC]
      rcases lt_trichotomy x y with h | h | h
      · rw [if_pos h]
        simp [h.ne]
      · subst h
        rw [if_neg (lt_irrefl x), if_neg (lt_irrefl x)]
        simp [ih]
      · rw [if_neg (asymm h), if_pos h]
        simp [h.ne']

theorem cmpStr_swap (a b : String) : cmpStr b a = (cmpStr a b).swap :=
  cmpC_swap a.data b.data

theorem cmpStr_eq_iff (a b : String) : cmpStr a b = .eq ↔ a = b := by
  rw [cmpStr, cmpC_eq_iff]
  constructor
  · intro h
    cases a
    cases b
    exact congrArg String.mk h
  · intro h
    rw [h]

theorem cmpOptTitle_swap (x y : Option String) (o : Ordering)
    (h : cmpOptTitle x y = .ok o) : cmpOptTitle y x = .ok o.swap := by
  cases x <;> cases y <;> simp [cmpOptTitle] at h ⊢
  · cases h
    rfl
  · rw [cmpStr_swap, ← h]

theorem keyCmp_swap (a b : Session) (o : Ordering) (h : keyCmp a b = .ok o) :
    keyCmp b a = .ok o.swap := by
  simp only [keyCmp, cmpStr_eq_iff] at h ⊢
  by_cases h1 : a.date = b.date
  · rw [if_pos h1] at h
    rw [if_pos h1.symm]
    by_cases h2 : a.time_start = b.time_start
    · rw [if_pos h2] at h
      rw [if_pos h2.symm]
      by_cases h3 : a.time_end = b.time_end
      · rw [if_pos h3] at h
        rw [if_pos h3.symm]
        exact cmpOptTitle_swap _ _ _ h
      · rw [if_neg h3] at h
        rw [if_neg (fun hc => h3 hc.symm)]
        injection h with h
        rw [← h, cmpStr_swap]
    · rw [if_neg h2] at h
      rw [if_neg (fun hc => h2 hc.symm)]
      injection h with h
      rw [← h, cmpStr_swap]
  · rw [if_neg h1] at h
    rw [if_neg (fun hc => h1 hc.symm)]
    injection h with h
    rw [← h, cmpStr_swap]

theorem insertE_perm (x : Session) (l out : List Session) (h : insertE x l = .ok out) :
    out.Perm (x :: l) := by
  induction l generalizing out with
  | nil =>
    unfold insertE at h
    injection h with h
    rw [← h]
  | cons y ys ih =>
    unfold insertE at h
    cases hc : keyCmp x y with
    | error e => rw [hc] at h; cases h
    | ok o =>
      rw [hc] at h
      cases o with
      | lt =>
        injection h with h
        rw [← h]
      | eq =>
        cases hr : insertE x ys with
        | error e => rw [hr] at h; cases h
        | ok r =>
          rw [hr] at h
          injection h with h
          rw [← h]
          exact ((ih r hr).cons y).trans (List.Perm.swap x y ys)
      | gt =>
        cases hr : insertE x ys with
        | error e => rw [hr] at h; cases h
        | ok r =>
          rw [hr] at h
          injection h with h
          rw [← h]
          exact ((ih r hr).cons y).trans (List.Perm.swap x y ys)

theorem keyLe_of_not_lt (x y : Session) (o : Ordering) (hc : keyCmp x y = .ok o)
    (ho : o = .eq ∨ o = .gt) : keyLe y x := by
  rcases ho with ho | ho <;> subst ho
  · exact Or.inr (keyCmp_swap x y .eq hc)
  · exact Or.inl (keyCmp_swap x y .gt hc)

theorem insertE_chain (x : Session) (l out : List Session)
    (hl : List.Chain' keyLe l) (h : insertE x l = .ok out) :
    List.Chain' keyLe out := by
  induction l generalizing out with
  | nil =>
    unfold insertE at h
    injection h with h
    rw [← h]
    simp
  | cons y ys ih =>
    unfold insertE at h
    cases hc : keyCmp x y with
    | error e => rw [hc] at h; cases h
    | ok o =>
      rw [hc] at h
      cases o with
      | lt =>
        injection h with h
        rw [← h]
        exact List.chain'_cons.mpr ⟨Or.inl hc, hl⟩
      | eq =>
        cases hr : insertE x ys with
        | error e => rw [hr] at h; cases h
        | ok r =>
          rw [hr] at h
          injection h with h
          rw [← h]
          refine List.chain'_cons'.mpr ⟨?_, ih r hl.tail hr⟩
          intro z hz
          cases ys with
          | nil =>
            unfold insertE at hr
            injection hr with hr
            rw [← hr] at hz
            cases hz
            exact keyLe_of_not_lt x y .eq hc (Or.inl rfl)
          | cons w ws =>
            unfold insertE at hr
            cases hw : keyCmp x w with
            | error e => rw [hw] at hr; cases hr
            | ok ow =>
              rw [hw] at hr
              cases ow with
              | lt =>
                injection hr with hr
                rw [← hr] at hz
                cases hz
                exact keyLe_of_not_lt x y .eq hc (Or.inl rfl)
              | eq =>
                cases hr2 : insertE x ws with
                | error e => rw [hr2] at hr; cases hr
                | ok r2 =>
                  rw [hr2] at hr
                  injection hr with hr
                  rw [← hr] at hz
                  cases hz
                  exact (List.chain'_cons.mp hl).1
              | gt =>
                cases hr2 : insertE x ws with
                | error e => rw [hr2] at hr; cases hr
                | ok r2 =>
                  rw [hr2] at hr
                  injection hr with hr
                  rw [← hr] at hz
                  cases hz
                  exact (List.chain'_cons.mp hl).1
      | gt =>
        cases hr : insertE x ys with
        | error e => rw [hr] at h; cases h
        | ok r =>
          rw [hr] at h
          injection h with h
          rw [← h]
          refine List.chain'_cons'.mpr ⟨?_, ih r hl.tail hr⟩
          intro z hz
          cases ys with
          | nil =>
            unfold insertE at hr
            injection hr with hr
            rw [← hr] at hz
            cases hz
            exact keyLe_of_not_lt x y .gt hc (Or.inr rfl)
          | cons w ws =>
            unfold insertE at hr
            cases hw : keyCmp x w with
            | error e => rw [hw] at hr; cases hr
            | ok ow =>
              rw [hw] at hr
              cases ow with
              | lt =>
                injection hr with hr
                rw [← hr] at hz
                cases hz
                exact keyLe_of_not_lt x y .gt hc (Or.inr rfl)
              | eq =>
                cases hr2 : insertE x ws with
                | error e => rw [hr2] at hr; cases hr
                | ok r2 =>
                  rw [hr2] at hr
                  injection hr with hr
                  rw [← hr] at hz
                  cases hz
                  exact (List.chain'_cons.mp hl).1
              | gt =>
                cases hr2 : insertE x ws with
                | error e => rw [hr2] at hr; cases hr
                | ok r2 =>
                  rw [hr2] at hr
                  injection hr with hr
                  rw [← hr] at hz
                  cases hz
                  exact (List.chain'_cons.mp hl).1

theorem sortInsertAll_chain (xs : List Session) (acc out : List Session)
    (hacc : List.Chain' keyLe acc) (h : sortInsertAll acc xs = .ok out) :
    List.Chain' keyLe out := by
  induction xs generalizing acc with
  | nil =>
    unfold sortInsertAll at h
    injection h with h
    rw [← h]
    exact hacc
  | cons x rest ih =>
    unfold sortInsertAll at h
    cases hi : insertE x acc with
    | error e => rw [hi] at h; cases h
    | ok acc2 =>
      rw [hi] at h
      exact ih acc2 (insertE_chain x acc acc2 hacc hi) h

theorem sortInsertAll_perm (xs : List Session) (acc out : List Session)
    (h : sortInsertAll acc xs = .ok out) : out.Perm (acc ++ xs) := by
  induction xs generalizing acc with
  | nil =>
    unfold sortInsertAll at h
    injection h with h
    rw [← h]
    simp
  | cons x rest ih =>
    unfold sortInsertAll at h
    cases hi : insertE x acc with
    | error e => rw [hi] at h; cases h
    | ok acc2 =>
      rw [hi] at h
      have h1 := ih acc2 h
      have h2 := insertE_perm x acc acc2 hi
      refine h1.trans ?_
      refine ((h2.append_right rest).trans ?_)
      exact List.perm_middle.symm

theorem sortSessions_chain (l out : List Session) (h : sortSessions l = .ok out) :
    List.Chain' keyLe out :=
  sortInsertAll_chain l [] out (by simp) h

theorem sortSessions_perm (l out : List Session) (h : sortSessions l = .ok out) :
    out.Perm l := by
  simpa using sortInsertAll_perm l [] out h

theorem parse_session_ok_elim (el : SessionEl) (date : String) (r : Session)
    (h : parse_session el date = .ok r) :
    ∃ s_time t1 t2 time_start time_end s_href hrest len,
      get_text el.event_meta_p = some s_time ∧
      pySplit " - " s_time = [t1, t2] ∧
      convert_time t1 = .ok time_start ∧
      convert_time t2 = .ok time_end ∧
      el.event_title_a_href = s_href :: hrest ∧
      calculate_length time_start time_end = .ok len ∧
      r = { title := get_text el.event_title
          , type := get_text el.event_type
          , description := get_text el.event_content_p
          , speakers := match get_text el.event_speakers with
                        | none => none
                        | some raw => some (stripSpeakerLabel raw)
          , date := date
          , time_start := time_start
          , time_end := time_end
          , length_in_hours := round3 len
          , room := get_text el.event_meta_h4
          , event_id := pyJoin "/" (sliceM3M1 (pySplit "/" s_href))
          , event_url := "https://ire.org" ++ s_href } := by
  unfold parse_session at h
  split at h
  · exact Except.noConfusion h
  next s_time hm =>
    split at h
    next t1 t2 hsp =>
      split at h
      · exact Except.noConfusion h
      next time_start hct1 =>
        split at h
        · exact Except.noConfusion h
        next time_end hct2 =>
          split at h
          · exact Except.noConfusion h
          next s_href hrest hhref =>
            split at h
            · exact Except.noConfusion h
            next len hlen =>
              injection h with h
              exact ⟨s_time, t1, t2, time_start, time_end, s_href, hrest, len,
                hm, hsp, hct1, hct2, hhref, hlen, h.symm⟩
    next hsp => exact Except.noConfusion h

theorem parse_session_date (el : SessionEl) (date : String) (r : Session)
    (h : parse_session el date = .ok r) : r.date = date := by
  obtain ⟨_, _, _, _, _, _, _, _, _, _, _, _, _, _, hr⟩ := parse_session_ok_elim el date r h
  rw [hr]

theorem parse_day_dates (els : List SessionEl) (date : String) (out : List Session)
    (h : parse_day els date = .ok out) : ∀ r ∈ out, r.date = date := by
  induction els generalizing out with
  | nil =>
    unfold parse_day mapE at h
    injection h with h
    rw [← h]
    simp
  | cons e es ih =>
    unfold parse_day mapE at h
    cases hp : parse_session e date with
    | error err => rw [hp] at h; exact Except.noConfusion h
    | ok r =>
      rw [hp] at h
      cases hm : mapE (fun s => parse_session s date) es with
      | error err => rw [hm] at h; exact Except.noConfusion h
      | ok rs =>
        rw [hm] at h
        injection h with h
        rw [← h]
        intro x hx
        rcases List.mem_cons.mp hx with hx | hx
        · rw [hx]
          exact parse_session_date e date r hp
        · exact ih rs (by unfold parse_day; exact hm) x hx

theorem zip_getD (l1 : List α) (l2 : List β) (i : Nat) (d1 : α) (d2 : β)
    (h1 : i < l1.length) (h2 : i < l2.length) :
    (l1.zip l2).getD i (d1, d2) = (l1.getD i d1, l2.getD i d2) := by
  induction l1 generalizing l2 i with
  | nil => simp at h1
  | cons x xs ih =>
    cases l2 with
    | nil => simp at h2
    | cons y ys =>
      cases i with
      | zero => simp [List.zip_cons_cons]
      | succ n =>
        simp only [List.zip_cons_cons, List.getD_cons_succ]
        exact ih ys n (by simpa using h1) (by simpa using h2)

theorem subFix_nil : subFix [] = some [] := rfl

theorem subFix_id (s : List Char) (h : List.Chain' leadContFree s) : subFix s = some s := by
  induction s with
  | nil => rfl
  | cons c rest ih =>
    have hrest : subFix rest = some rest := ih h.tail
    have hcond : (isLead c && !(rest.takeWhile isCont).isEmpty) = false := by
      cases hl : isLead c
      · simp
      · cases rest with
        | nil => simp [List.takeWhile]
        | cons b t =>
          have hb : leadContFree c b := (List.chain'_cons.mp h).1
          have hcb : isCont b = false := by
            cases hcb : isCont b
            · rfl
            · exact absurd ⟨hl, hcb⟩ hb
          simp [List.takeWhile, hcb]
    show subFixFuel (rest.length + 1 + 1) (c :: rest) = some (c :: rest)
    rw [subFixFuel, hcond]
    simp only [Bool.false_eq_true, if_false]
    have : subFixFuel (rest.length + 1) rest = some rest := hrest
    rw [this]
    rfl

theorem ascii_chain (s : List Char) (h : ∀ c ∈ s, c.toNat < 0x80) :
    List.Chain' leadContFree s := by
  induction s with
  | nil => simp
  | cons a rest ih =>
    cases rest with
    | nil => simp [List.chain'_singleton]
    | cons b t =>
      refine List.chain'_cons.mpr ⟨?_, ih ?_⟩
      · intro hab
        have ha := h a (by simp)
        have : (0xc2 ≤ a.toNat && a.toNat ≤ 0xf4) = true := hab.1
        simp only [Bool.and_eq_true, decide_eq_true_eq] at this
        omega
      · intro c hc
        exact h c (List.mem_cons_of_mem a hc)

theorem round3_nonneg (q : ℚ) (h : 0 ≤ q) : 0 ≤ round3 q := by
  unfold round3
  have hq : 0 ≤ Rat.divInt (q.num * 1000) (q.den : ℤ) := by
    apply Rat.divInt_nonneg
    · exact mul_nonneg (Rat.num_nonneg.mpr h) (by norm_num)
    · exact_mod_cast Nat.zero_le q.den
  apply Rat.divInt_nonneg _ (by norm_num)
  unfold roundHalfEven
  have hnum : 0 ≤ (Rat.divInt (q.num * 1000) (q.den : ℤ)).num := Rat.num_nonneg.mpr hq
  have hden : (0 : ℤ) ≤ ((Rat.divInt (q.num * 1000) (q.den : ℤ)).den : ℤ) :=
    Int.ofNat_nonneg _
  have hf := Int.fdiv_nonneg hnum hden
  dsimp only
  split
  · exact hf
  · split
    · omega
    · split
      · exact hf
      · omega

theorem append_left_ne (s t u : String) (h : s.length ≠ t.length) : s ++ u ≠ t ++ u := by
  intro he
  apply h
  have hl := congrArg String.length he
  simp only [String.length_append] at hl
  omega

/-! ### The claims -/

/-- C1: for every 12-hour time token of the form `<nums> <suffix>` with
suffix `am` or `pm`, `convert_time` splits off the suffix, appends ":00"
when the numeric part contains no colon, adds 12 to the hour exactly when
the suffix is "pm" and the hour is not already 12, and leaves the hour
unchanged otherwise; in particular `convert_time "8 am" = "08:00"`,
`convert_time "12:30 pm" = "12:30"`, `convert_time "12 pm" = "12:00"`,
and `convert_time "12 am" = "12:00"` (the documented midnight quirk). -/
theorem convert_time_spec :
    (∀ ts nums suffix hours minutes,
      pySplit " " ts = [nums, suffix] →
      suffix = "am" ∨ suffix = "pm" →
      mapO pyInt (pySplit ":" (if countColon nums = 0 then nums ++ ":00" else nums))
        = some [hours, minutes] →
      convert_time ts
        = .ok (fmt2 (if suffix = "pm" ∧ hours ≠ 12 then hours + 12 else hours)
            ++ ":" ++ fmt2 minutes)) ∧
    convert_time "8 am" = .ok "08:00" ∧
    convert_time "12:30 pm" = .ok "12:30" ∧
    convert_time "12 pm" = .ok "12:00" ∧
    convert_time "12 am" = .ok "12:00" := by
  refine ⟨?_, by decide, by decide, by decide, by decide⟩
  intro ts nums suffix hours minutes hsp hsuf hparse
  unfold convert_time
  rw [hsp]
  dsimp only
  rw [if_pos hsuf.symm, hparse]
  have harith : hours + (if suffix = "pm" ∧ hours ≠ 12 then 12 else 0)
      = if suffix = "pm" ∧ hours ≠ 12 then hours + 12 else hours := by
    split <;> omega
  exact congrArg (fun z => Except.ok (fmt2 z ++ ":" ++ fmt2 minutes)) harith

/-- C1 witness: the general clause evaluated at "8 am". -/
theorem convert_time_spec_witness : convert_time "8 am" = .ok "08:00" := by
  have h := convert_time_spec.1 "8 am" "8" "am" 8 0 (by decide) (Or.inl rfl) (by decide)
  rw [h]
  decide

/-- C5: a token whose space-separated suffix is neither the literal "am"
nor "pm" makes `convert_time` raise the `ValueError: Can't parse` error,
and exactly those suffixes do: with suffix "am" or "pm" that error is
never raised. -/
theorem convert_time_suffix_error :
    (∀ ts nums suffix,
      pySplit " " ts = [nums, suffix] → suffix ≠ "am" → suffix ≠ "pm" →
      convert_time ts = .error ("ValueError: Can't parse " ++ ts)) ∧
    (∀ ts nums suffix,
      pySplit " " ts = [nums, suffix] → (suffix = "am" ∨ suffix = "pm") →
      convert_time ts ≠ .error ("ValueError: Can't parse " ++ ts)) := by
  constructor
  · intro ts nums suffix hsp h1 h2
    unfold convert_time
    rw [hsp]
    dsimp only
    rw [if_neg ?_]
    rintro (h | h)
    · exact h2 h
    · exact h1 h
  · intro ts nums suffix hsp hsuf hcontra
    unfold convert_time at hcontra
    rw [hsp] at hcontra
    dsimp only at hcontra
    rw [if_pos hsuf.symm] at hcontra
    split at hcontra
    · exact Except.noConfusion hcontra
    next hne =>
      injection hcontra with hmsg
      exact append_left_ne "ValueError: invalid int literal or unpack in "
        "ValueError: Can't parse " ts (by decide) hmsg

/-- C5 witness: a bad suffix raises, a good one does not. -/
theorem convert_time_suffix_error_witness :
    convert_time "8 xq" = .error ("ValueError: Can't parse " ++ "8 xq") ∧
    convert_time "8 am" ≠ .error ("ValueError: Can't parse " ++ "8 am") :=
  ⟨convert_time_suffix_error.1 "8 xq" "8" "xq" (by decide) (by decide) (by decide),
   convert_time_suffix_error.2 "8 am" "8" "am" (by decide) (Or.inl rfl)⟩

/-- C3: for every pair of parsed "HH:MM" strings, `calculate_length`
returns (end total minutes − start total minutes) / 60, the value stored
in a session record is that quotient rounded to 3 decimal places, and in
particular `calculate_length "09:00" "10:30" = 1.5`. -/
theorem calculate_length_spec :
    (∀ s e sh sm eh em,
      mapO pyInt (pySplit ":" s) = some [sh, sm] →
      mapO pyInt (pySplit ":" e) = some [eh, em] →
      calculate_length s e
        = .ok (((((eh : ℤ) * 60 + em) - ((sh : ℤ) * 60 + sm) : ℤ) : ℚ) / 60)) ∧
    (∀ el date r, parse_session el date = .ok r →
      ∃ q, calculate_length r.time_start r.time_end = .ok q ∧
        r.length_in_hours = round3 q) ∧
    calculate_length "09:00" "10:30" = .ok (3 / 2 : ℚ) := by
  refine ⟨?_, ?_, ?_⟩
  · intro s e sh sm eh em hs he
    unfold calculate_length
    rw [hs, he]
    dsimp only
    congr 1
    rw [Rat.divInt_eq_div]
    norm_num
  · intro el date r h
    obtain ⟨s_time, t1, t2, ts, te, shref, hrest, len, hm, hsp, h1, h2, h3, hlen, hr⟩ :=
      parse_session_ok_elim el date r h
    refine ⟨len, ?_, ?_⟩
    · rw [hr]
      exact hlen
    · rw [hr]
  · have h1 : calculate_length "09:00" "10:30" = .ok (Rat.divInt 90 60) := by decide
    rw [h1]
    congr 1
    rw [Rat.divInt_eq_div]
    norm_num

/-- C3 witness: the general clause evaluated at 09:00 and 10:30. -/
theorem calculate_length_spec_witness :
    calculate_length "09:00" "10:30"
      = .ok (((((10 : ℤ) * 60 + 30) - ((9 : ℤ) * 60 + 0) : ℤ) : ℚ) / 60) :=
  calculate_length_spec.1 "09:00" "10:30" 9 0 10 30 (by decide) (by decide)

/-- C9 counterexample: a session whose time block ends before it starts
is parsed without error and yields a negative `length_in_hours`, so the
field is not always non-negative. -/
theorem length_in_hours_negative_example :
    parse_session elNeg "2019-03-06" = .ok recNeg ∧ recNeg.length_in_hours < 0 := by
  constructor
  · decide
  · decide

/-- C9 (amended): for every record produced by `parse_session`, the
`length_in_hours` field is `calculate_length`'s quotient rounded to 3
decimal places, and it is non-negative whenever that quotient is (i.e.
whenever the end time's total minutes are at least the start time's); a
session whose end precedes its start yields a negative value. -/
theorem length_in_hours_round3_nonneg :
    ∀ el date r, parse_session el date = .ok r →
      ∃ q, calculate_length r.time_start r.time_end = .ok q ∧
        r.length_in_hours = round3 q ∧ (0 ≤ q → 0 ≤ r.length_in_hours) := by
  intro el date r h
  obtain ⟨s_time, t1, t2, ts, te, shref, hrest, len, hm, hsp, h1, h2, h3, hlen, hr⟩ :=
    parse_session_ok_elim el date r h
  refine ⟨len, ?_, ?_, ?_⟩
  · rw [hr]
    exact hlen
  · rw [hr]
  · intro hq
    rw [hr]
    exact round3_nonneg len hq

/-- C9 witness: the amended statement evaluated on a concrete session. -/
theorem length_in_hours_round3_nonneg_witness :
    ∃ q, calculate_length recW.time_start recW.time_end = .ok q ∧
      recW.length_in_hours = round3 q ∧ (0 ≤ q → 0 ≤ recW.length_in_hours) :=
  length_in_hours_round3_nonneg elW "2019-03-06" recW (by decide)

theorem sliceM3M1_append (init : List String) (a b c : String) :
    sliceM3M1 (init ++ [a, b, c]) = [a, b] := by
  have hn : (init ++ [a, b, c]).length = init.length + 3 := by simp
  unfold sliceM3M1
  rw [hn]
  dsimp only
  rw [if_pos (by omega : 3 ≤ init.length + 3), if_pos (by omega : 1 ≤ init.length + 3)]
  have h1 : init.length + 3 - 1 = init.length + 2 := by omega
  have h2 : init.length + 3 - 3 = init.length := by omega
  rw [h1, h2]
  have ht : (init ++ [a, b, c]).take (init.length + 2) = init ++ [a, b] := by
    rw [List.take_append]
    rfl
  rw [ht]
  exact List.drop_left init [a, b]

/-- C4 counterexample: the claim says a short href makes the `event_id`
computation fail with an index error, but Python's slice `[-3:-1]` never
raises: on the one-segment href "x" the session parses successfully and
its `event_id` is simply the empty string. -/
theorem event_id_short_href_no_error :
    parse_session elShort "2019-03-06" = .ok recShort ∧ recShort.event_id = "" :=
  ⟨by decide, by decide⟩

/-- C4 (amended): for every record produced by `parse_session`, the
`event_id` equals the "/"-join of the Python slice `[-3:-1]` of the
"/"-split title-link href; when the href has at least three segments that
is the third-from-last and second-from-last segments joined with "/"; a
shorter href raises no error (the slice merely truncates, as the
counterexample shows); an index error can only come from a missing
`.event-title a` element, in which case `parse_session` cannot
succeed. -/
theorem event_id_slice_spec :
    (∀ el date r, parse_session el date = .ok r →
      ∃ s_href rest, el.event_title_a_href = s_href :: rest ∧
        r.event_id = pyJoin "/" (sliceM3M1 (pySplit "/" s_href))) ∧
    (∀ (init : List String) (a b c : String),
      pyJoin "/" (sliceM3M1 (init ++ [a, b, c])) = a ++ "/" ++ b) ∧
    (∀ el date, el.event_title_a_href = [] → ∀ r, parse_session el date ≠ .ok r) := by
  refine ⟨?_, ?_, ?_⟩
  · intro el date r h
    obtain ⟨_, _, _, _, _, s_href, hrest, _, _, _, _, _, hhref, _, hr⟩ :=
      parse_session_ok_elim el date r h
    exact ⟨s_href, hrest, hhref, by rw [hr]⟩
  · intro init a b c
    rw [sliceM3M1_append]
    rfl
  · intro el date hh r hok
    obtain ⟨_, _, _, _, _, s_href, hrest, _, _, _, _, _, hhref, _, _⟩ :=
      parse_session_ok_elim el date r hok
    rw [hh] at hhref
    exact List.noConfusion hhref

/-- C4 witness: the amended statement on a concrete short href and a
concrete well-formed href. -/
theorem event_id_slice_spec_witness :
    (∃ s_href rest, elShort.event_title_a_href = s_href :: rest ∧
      recShort.event_id = pyJoin "/" (sliceM3M1 (pySplit "/" s_href))) ∧
    pyJoin "/" (sliceM3M1 (["", "events-and-training", "event"] ++ ["1234", "5678", ""]))
      = "1234" ++ "/" ++ "5678" :=
  ⟨event_id_slice_spec.1 elShort "2019-03-06" recShort (by decide),
   event_id_slice_spec.2.1 ["", "events-and-training", "event"] "1234" "5678" ""⟩

/-- C2: whenever the `get_sessions` pipeline returns a record list, that
list is a permutation of the extracted records and every pair of adjacent
records satisfies the non-strict 4-tuple key order (date, time_start,
time_end, title) under lexical string comparison — so a day-1 session
precedes any day-2 session, within a day earlier start times precede
later ones, and equal start times are ordered by end time then title. -/
theorem getSessions_sorted :
    ∀ day_els out, getSessionsFrom day_els = .ok out →
      List.Chain' keyLe out ∧
      ∃ nested, mapE (fun p => parse_day p.1 p.2) (daysZipped day_els) = .ok nested ∧
        out.Perm nested.flatten := by
  intro day_els out h
  unfold getSessionsFrom at h
  cases hm : mapE (fun p => parse_day p.1 p.2) (daysZipped day_els) with
  | error e => rw [hm] at h; exact Except.noConfusion h
  | ok nested =>
    rw [hm] at h
    exact ⟨sortSessions_chain _ _ h, nested, rfl, sortSessions_perm _ _ h⟩

/-- C2 witness: the sorting guarantee evaluated on a concrete one-day
page. -/
theorem getSessions_sorted_witness :
    List.Chain' keyLe [recW] ∧
    ∃ nested, mapE (fun p => parse_day p.1 p.2) (daysZipped [[elW]]) = .ok nested ∧
      List.Perm [recW] nested.flatten :=
  getSessions_sorted [[elW]] [recW] (by decide)

/-- C6: the day extractor zips the day containers positionally against
the fixed five-date list, truncating to the shorter side (`zip`-style):
the zipped length is the minimum of the two lengths, the i-th pair is the
i-th container with the i-th date, and every record a day's parse
produces carries exactly the date that was paired with that container. -/
theorem days_zip_truncation :
    DATES.length = 5 ∧
    (∀ day_els : List (List SessionEl),
      (daysZipped day_els).length = min day_els.length DATES.length) ∧
    (∀ (day_els : List (List SessionEl)) (i : Nat),
      i < day_els.length → i < DATES.length →
      (daysZipped day_els).getD i ([], "") = (day_els.getD i [], DATES.getD i "")) ∧
    (∀ els date out, parse_day els date = .ok out → ∀ r ∈ out, r.date = date) := by
  refine ⟨rfl, ?_, ?_, parse_day_dates⟩
  · intro d
    simp [daysZipped, List.length_zip]
  · intro d i h1 h2
    exact zip_getD d DATES i [] "" h1 h2

/-- C6 witness: six containers truncate to five pairs; a parsed record
carries its container's date. -/
theorem days_zip_truncation_witness :
    (daysZipped [[elW], [], [], [], [], []]).getD 1 ([], "") = ([], "2019-03-07") ∧
    recW.date = "2019-03-06" := by
  constructor
  · have h := days_zip_truncation.2.2.1 [[elW], [], [], [], [], []] 1 (by decide) (by decide)
    rw [h]
    decide
  · exact days_zip_truncation.2.2.2 [elW] "2019-03-06" [recW] (by decide) recW (by decide)

/-- C7: the encoding-repair substitution is the identity (hence
idempotent) on any text with no substring matching the pattern — no
lead-range character (0xC2–0xF4) immediately followed by a
continuation-range character (0x80–0xBF) — in particular on plain ASCII
text; and on text where UTF-8 "é" was mis-stored as the two Latin-1
characters "Ã©" it produces the single correct character "é". -/
theorem fix_encoding_spec :
    (∀ s : List Char, List.Chain' leadContFree s → subFix s = some s) ∧
    (∀ s : List Char, (∀ c ∈ s, c.toNat < 0x80) → subFix s = some s) ∧
    subFix "CafÃ©".data = some "Café".data := by
  refine ⟨subFix_id, ?_, by decide⟩
  intro s h
  exact subFix_id s (ascii_chain s h)

/-- C7 witness: identity on a concrete ASCII text. -/
theorem fix_encoding_spec_witness :
    subFix "plain ascii text".data = some "plain ascii text".data :=
  fix_encoding_spec.2.1 "plain ascii text".data (by decide)

/-- C8: the speakers field of a parsed record is absent exactly when no
non-empty speakers-element text exists, and otherwise equals the raw
speakers text with a leading "Speaker: " or "Speakers: " label stripped —
insensitive to the plural "s" but sensitive to letter case, so a
lowercase "speakers: " prefix is not stripped. -/
theorem speakers_spec :
    (∀ el date r, parse_session el date = .ok r →
      ((r.speakers = none ↔ get_text el.event_speakers = none) ∧
       (∀ raw, get_text el.event_speakers = some raw →
          r.speakers = some (stripSpeakerLabel raw)))) ∧
    (∀ texts, get_text texts = none ↔ ∀ t ∈ texts, (pyStrip t).data.isEmpty = true) ∧
    stripSpeakerLabel "Speaker: Jane Doe" = "Jane Doe" ∧
    stripSpeakerLabel "Speakers: Jane Doe" = "Jane Doe" ∧
    stripSpeakerLabel "speakers: Jane Doe" = "speakers: Jane Doe" := by
  refine ⟨?_, ?_, by decide, by decide, by decide⟩
  · intro el date r h
    obtain ⟨_, _, _, _, _, _, _, _, _, _, _, _, _, _, hr⟩ :=
      parse_session_ok_elim el date r h
    constructor
    · rw [hr]
      cases hsp : get_text el.event_speakers <;> simp
    · intro raw hraw
      rw [hr]
      show (match get_text el.event_speakers with
            | none => none
            | some raw => some (stripSpeakerLabel raw)) = some (stripSpeakerLabel raw)
      rw [hraw]
  · intro texts
    unfold get_text
    constructor
    · intro h t ht
      split at h
      next hfil =>
        have := List.filter_eq_nil_iff.mp hfil (pyStrip t) (List.mem_map_of_mem pyStrip ht)
        simpa using this
      next l hfil => exact Option.noConfusion h
    · intro h
      have hfil : (texts.map pyStrip).filter (fun t => !t.data.isEmpty) = [] := by
        apply List.filter_eq_nil_iff.mpr
        intro a ha
        obtain ⟨t, ht, rfl⟩ := List.mem_map.mp ha
        simpa using h t ht
      rw [hfil]

/-- C8 witness: the speakers clause evaluated on a concrete session. -/
theorem speakers_spec_witness :
    recW.speakers = some (stripSpeakerLabel "Speakers: Jane Doe") :=
  (speakers_spec.1 elW "2019-03-06" recW (by decide)).2 "Speakers: Jane Doe" (by decide)

/-- C10 counterexample: the claim says the sort is only well-defined when
every pair compared at equal (date, time_start, time_end) has string
titles, but two records whose titles are both absent compare via `None ==
None` in the tuple comparison and sort fine: here a parsed record with a
`None` title (its title link exists but the title text is empty) is
sorted against itself successfully, so string titles are not necessary
for well-definedness. -/
theorem sort_two_none_titles_ok :
    parse_session elB "2019-03-06" = .ok recB ∧ recB.title = none ∧
    sortSessions [recB, recB] = .ok [recB, recB] :=
  ⟨by decide, by decide, by decide⟩

/-- C10 (amended): the title of a parsed record can be `None` (when the
title selector yields no non-empty stripped text even though the title
link exists), and the sort's key comparison at equal date, time_start and
time_end is well-defined exactly when the two titles are both strings or
both `None`: comparing a `None` title against a string title raises a
`TypeError`, aborting the run, while two `None` titles compare equal. -/
theorem title_none_sort_typeerror :
    (parse_session elB "2019-03-06" = .ok recB ∧ recB.title = none ∧
      elB.event_title_a_href ≠ []) ∧
    (∀ r1 r2 t, r1.date = r2.date → r1.time_start = r2.time_start →
      r1.time_end = r2.time_end →
      ((r1.title = none ∧ r2.title = some t) ∨ (r1.title = some t ∧ r2.title = none)) →
      keyCmp r1 r2 = .error "TypeError: not supported between instances of NoneType and str") ∧
    (∀ r1 r2 t1 t2, r1.title = some t1 → r2.title = some t2 →
      ∃ o, keyCmp r1 r2 = .ok o) ∧
    (∀ r1 r2, r1.title = none → r2.title = none → r1.date = r2.date →
      r1.time_start = r2.time_start → r1.time_end = r2.time_end →
      keyCmp r1 r2 = .ok .eq) ∧
    sortSessions [recB, recC]
      = .error "TypeError: not supported between instances of NoneType and str" := by
  refine ⟨⟨by decide, by decide, by decide⟩, ?_, ?_, ?_, by decide⟩
  · intro r1 r2 t h1 h2 h3 h4
    simp only [keyCmp, cmpStr_eq_iff]
    rw [if_pos h1, if_pos h2, if_pos h3]
    rcases h4 with ⟨ha, hb⟩ | ⟨ha, hb⟩ <;> rw [ha, hb] <;> rfl
  · intro r1 r2 t1 t2 h1 h2
    simp only [keyCmp, cmpStr_eq_iff]
    by_cases hd : r1.date = r2.date
    · rw [if_pos hd]
      by_cases hts : r1.time_start = r2.time_start
      · rw [if_pos hts]
        by_cases hte : r1.time_end = r2.time_end
        · rw [if_pos hte, h1, h2]
          exact ⟨cmpStr t1 t2, rfl⟩
        · rw [if_neg hte]
          exact ⟨_, rfl⟩
      · rw [if_neg hts]
        exact ⟨_, rfl⟩
    · rw [if_neg hd]
      exact ⟨_, rfl⟩
  · intro r1 r2 h1 h2 hd hts hte
    simp only [keyCmp, cmpStr_eq_iff]
    rw [if_pos hd, if_pos hts, if_pos hte, h1, h2]
    rfl

/-- C10 witness: the `TypeError` clause evaluated on two concrete records
with equal date and times, one with an absent title, one with a string
title. -/
theorem title_none_sort_typeerror_witness :
    keyCmp recB recC
      = .error "TypeError: not supported between instances of NoneType and str" :=
  title_none_sort_typeerror.2.1 recB recC "T" rfl rfl rfl (Or.inl ⟨rfl, rfl⟩)
